import Mathlib

/-!
Verification of the frame-cache, session-loop and container-reformatting
logic of an RTSP image-capture service.

The Rust sources are modelled shallowly:
* byte buffers (`Vec<u8>` / `&[u8]`) are `List Nat`, each element a `u8` value;
* `Instant` is a `Nat` tick count, with the current time passed explicitly
  into every operation that reads the clock;
* the stateful external decoder (`&mut dyn ImageDecoder`) is a state-passing
  function `σ → List Nat → σ × Except DecoderError (List Nat)`, and the
  embedding additionally reports how many times the decoder was invoked
  (a ghost counter: it never influences control flow);
* fallible code returns `Except`.
-/

/-- Mirrors `DecoderError` from `src/decoders/mod.rs` (error payloads of the
external openh264 library are dropped: the code never inspects them). -/
inductive DecoderError
  | InitFail
  | DecodeFail
  | NoImageDecoded
  | FieldOutOfBounds
  | NalOutOfBounds
  | IndexOutOfBounds
deriving DecidableEq

instance {ε α : Type} [DecidableEq ε] [DecidableEq α] : DecidableEq (Except ε α)
  | Except.error a, Except.error b =>
    decidable_of_iff (a = b) ⟨fun h => by rw [h], fun h => by cases h; rfl⟩
  | Except.error _, Except.ok _ => isFalse (fun h => by cases h)
  | Except.ok _, Except.error _ => isFalse (fun h => by cases h)
  | Except.ok a, Except.ok b =>
    decidable_of_iff (a = b) ⟨fun h => by rw [h], fun h => by cases h; rfl⟩

/-- Model of the `ImageDecoder` trait object: a state type `σ` together with
a decode step that consumes the state and the input bytes. -/
abbrev ImageDecoder (σ : Type) := σ → List Nat → σ × Except DecoderError (List Nat)

/-- Mirrors `FrameHolder` from `src/camera/rtsp_session/mod.rs`:
the coded frames since the last key frame, the key-frame ingestion
timestamp, and the parallel memo of decoded frames. -/
structure FrameHolder where
  raw_frames : List (List Nat)
  ts : Nat
  decoded_frames : List (List Nat)
deriving DecidableEq

/-- Mirrors `FrameHolder::new`. -/
def FrameHolder.new (now : Nat) : FrameHolder :=
  { raw_frames := [], ts := now, decoded_frames := [] }

/-- Mirrors `FrameHolder::set_iframe`: clear both sequences, reset the
timestamp, push the key frame as `raw_frames[0]`. -/
def FrameHolder.set_iframe (_fh : FrameHolder) (now : Nat) (iframe : List Nat) : FrameHolder :=
  { raw_frames := [iframe], ts := now, decoded_frames := [] }

/-- Mirrors `FrameHolder::add_image`: unconditionally append a coded frame
(the buffer-size cap is checked by the session loop, not here). -/
def FrameHolder.add_image (fh : FrameHolder) (data : List Nat) : FrameHolder :=
  { fh with raw_frames := fh.raw_frames ++ [data] }

/-- Mirrors `FrameHolder::drain`: clear both sequences and reset the
timestamp. -/
def FrameHolder.drain (_fh : FrameHolder) (now : Nat) : FrameHolder :=
  { raw_frames := [], ts := now, decoded_frames := [] }

/-- Mirrors `FrameHolder::is_empty`. -/
def FrameHolder.is_empty (fh : FrameHolder) : Bool :=
  fh.raw_frames.isEmpty

/-- Mirrors `FrameHolder::raw_len`. -/
def FrameHolder.raw_len (fh : FrameHolder) : Nat :=
  fh.raw_frames.length

/-- Mirrors `FrameHolder::elapsed` (`Instant::now().duration_since(self.ts)`;
`Duration` is a `Nat`, saturating like `duration_since` does for a
monotonic clock). -/
def FrameHolder.elapsed (fh : FrameHolder) (now : Nat) : Nat :=
  now - fh.ts

/-- Mirrors `FrameHolder::get_ts`. -/
def FrameHolder.get_ts (fh : FrameHolder) : Nat :=
  fh.ts

/-- Result of one `FrameHolder::decode` call: the returned
`Result<&[u8], DecoderError>`, the mutated holder, the mutated decoder
state, and a ghost count of how many times `decoder.decode` was invoked. -/
structure DecodeOutcome (σ : Type) where
  res : Except DecoderError (List Nat)
  holder : FrameHolder
  decSt : σ
  calls : Nat
deriving DecidableEq

/-- The tail of `FrameHolder::decode` after the (possible) recursive call:
the memo-hit check `index < decoded_frames.len()`, and otherwise the
`decoder.decode` / `push` / re-read sequence.  `n` is the ghost invocation
count accumulated so far.  The `raw_frames` access uses `getD` with a
dummy default: every call site has `index < raw_frames.length`, matching
the bounds-checked Rust indexing `&self.raw_frames[index]`. -/
def decodeRest {σ : Type} (dec : ImageDecoder σ) (s : σ) (fh : FrameHolder)
    (index : Nat) (n : Nat) : DecodeOutcome σ :=
  if index < fh.decoded_frames.length then
    match fh.decoded_frames.get? index with
    | some v => ⟨Except.ok v, fh, s, n⟩
    | none => ⟨Except.error DecoderError.NoImageDecoded, fh, s, n⟩
  else
    match dec s (fh.raw_frames.getD index []) with
    | (s2, Except.error e) => ⟨Except.error e, fh, s2, n + 1⟩
    | (s2, Except.ok d) =>
      let fh2 : FrameHolder := { fh with decoded_frames := fh.decoded_frames ++ [d] }
      match fh2.decoded_frames.get? index with
      | some v => ⟨Except.ok v, fh2, s2, n + 1⟩
      | none => ⟨Except.error DecoderError.NoImageDecoded, fh2, s2, n + 1⟩

/-- Mirrors `FrameHolder::decode`: out-of-bounds check, recursive
back-fill of slot `index - 1` when the memo is short of `index`
(propagating errors like the Rust `?`, keeping the mutations made so
far), then `decodeRest`.  The recursion is guarded by
`decoded_frames.length < index`, so `index - 1` never underflows and the
argument strictly decreases. -/
def FrameHolder.decode {σ : Type} (dec : ImageDecoder σ) (s : σ) (fh : FrameHolder)
    (index : Nat) : DecodeOutcome σ :=
  if fh.raw_frames.length ≤ index then
    ⟨Except.error DecoderError.IndexOutOfBounds, fh, s, 0⟩
  else if h : fh.decoded_frames.length < index then
    let o := FrameHolder.decode dec s fh (index - 1)
    match o.res with
    | Except.error _ => o
    | Except.ok _ => decodeRest dec o.decSt o.holder index o.calls
  else
    decodeRest dec s fh index 0
termination_by index
decreasing_by simp_wf; omega

/-- Fuel-indexed copy of `FrameHolder.decode`, structurally recursive on
the fuel; `none` means the fuel ran out before the recursion bottomed
out.  Used to witness that the recursion depth of `decode` is bounded by
`index + 1`. -/
def FrameHolder.decodeFuel {σ : Type} (dec : ImageDecoder σ) :
    Nat → σ → FrameHolder → Nat → Option (DecodeOutcome σ)
  | 0, _, _, _ => none
  | fuel + 1, s, fh, index =>
    if fh.raw_frames.length ≤ index then
      some ⟨Except.error DecoderError.IndexOutOfBounds, fh, s, 0⟩
    else if fh.decoded_frames.length < index then
      match FrameHolder.decodeFuel dec fuel s fh (index - 1) with
      | none => none
      | some o =>
        match o.res with
        | Except.error _ => some o
        | Except.ok _ => some (decodeRest dec o.decSt o.holder index o.calls)
    else
      some (decodeRest dec s fh index 0)

/-- Spec-side restatement of the decode-through algorithm, following the
spec's words: starting from the current memo, decode
`raw[decoded.length], raw[decoded.length+1], …, raw[index]` in order,
appending each result, stopping at the first decoder error.  Returns the
final memo and decoder state. -/
def fillFrom {σ : Type} (dec : ImageDecoder σ) (s : σ) (raw : List (List Nat))
    (decoded : List (List Nat)) (index : Nat) :
    Except DecoderError Unit × List (List Nat) × σ :=
  if h : decoded.length ≤ index then
    match dec s (raw.getD decoded.length []) with
    | (s2, Except.error e) => (Except.error e, decoded, s2)
    | (s2, Except.ok d) => fillFrom dec s2 raw (decoded ++ [d]) index
  else
    (Except.ok (), decoded, s)
termination_by index + 1 - decoded.length
decreasing_by simp_wf; omega

/-- Mirrors `SessionError` from `src/camera/rtsp_session/mod.rs`
(payloads of the transport library and message strings are dropped;
`DecodingError` keeps its `DecoderError`). -/
inductive SessionError
  | UrlParseError
  | UnsetParameter
  | ServerDropped
  | BrokenPipeline
  | UnableToSubscribe
  | DecodingError (e : DecoderError)
  | OldFrame
  | FailedToDescribeSession
  | NoVideoStreamFound
  | FailedToSetupStream
  | FailedToPlayStream
  | FailedToDemuxStream
deriving DecidableEq

/-- Mirrors `FrameResponse`. -/
structure FrameResponse where
  frame : List Nat
  i_frame_ts : Nat
deriving DecidableEq

/-- Mirrors `SessionConfig` (`Duration` as `Nat`). -/
structure SessionConfig where
  buf_size : Nat
  frame_lifetime : Nat

/-- One event multiplexed by the serving loop's `select!`:
a demuxed video frame with its key-frame flag, a frame-decode request,
or a caller-registration request.  `now` is the clock value when the
branch runs. -/
inductive SessionEvent
  | videoFrame (isRap : Bool) (data : List Nat) (now : Nat)
  | frameRequest (index : Nat) (now : Nat)
  | register

/-- The mutable state owned by the serving loop: the frame holder and the
decoder state. -/
structure ActorState (σ : Type) where
  holder : FrameHolder
  decSt : σ
deriving DecidableEq

/-- What one loop iteration sends back: nothing, a frame response on the
request's oneshot channel, or a minted session instance. -/
inductive StepOutput
  | silent
  | response (r : Except SessionError FrameResponse)
  | instanceGranted
deriving DecidableEq

/-- Mirrors one iteration of `SessionWrapper::session_loop`'s `select!`.
The `frameRequest` branch is guarded by `!self.frame_holder.is_empty()`:
when the holder is empty the request is not handled at all (it stays in
the channel), modelled as a silent no-op.  Otherwise: staleness check
(drain + `OldFrame`), else `FrameHolder::decode` and a response carrying
the decoded bytes and the anchor timestamp.  The `videoFrame` branch:
key frames always call `set_iframe`; other frames are appended unless
`raw_len() >= buf_size`.  Non-video packets are not modelled (they are
discarded by the loop). -/
def sessionStep {σ : Type} (cfg : SessionConfig) (dec : ImageDecoder σ)
    (st : ActorState σ) : SessionEvent → ActorState σ × StepOutput
  | SessionEvent.frameRequest index now =>
    if st.holder.is_empty then
      (st, StepOutput.silent)
    else if cfg.frame_lifetime < st.holder.elapsed now then
      (⟨st.holder.drain now, st.decSt⟩,
        StepOutput.response (Except.error SessionError.OldFrame))
    else
      let o := FrameHolder.decode dec st.decSt st.holder index
      match o.res with
      | Except.error e =>
        (⟨o.holder, o.decSt⟩,
          StepOutput.response (Except.error (SessionError.DecodingError e)))
      | Except.ok v =>
        (⟨o.holder, o.decSt⟩,
          StepOutput.response (Except.ok ⟨v, o.holder.get_ts⟩))
  | SessionEvent.videoFrame isRap data now =>
    if isRap then
      (⟨st.holder.set_iframe now data, st.decSt⟩, StepOutput.silent)
    else if cfg.buf_size ≤ st.holder.raw_len then
      (st, StepOutput.silent)
    else
      (⟨st.holder.add_image data, st.decSt⟩, StepOutput.silent)
  | SessionEvent.register => (st, StepOutput.instanceGranted)

/-- Run the serving loop over a list of events, starting from `st`. -/
def sessionRun {σ : Type} (cfg : SessionConfig) (dec : ImageDecoder σ)
    (st : ActorState σ) : List SessionEvent → ActorState σ
  | [] => st
  | e :: es => sessionRun cfg dec (sessionStep cfg dec st e).1 es

/-- Big-endian `u32` read, mirroring `u32::from_be_bytes` on four `u8`
values (`src/decoders/mod.rs`, `AVCCDecoder::decode`). -/
def u32be (b0 b1 b2 b3 : Nat) : Nat :=
  ((b0 * 256 + b1) * 256 + b2) * 256 + b3

/-- The `while index < data.len()` loop of `AVCCDecoder::decode`,
expressed on the not-yet-consumed suffix of the input; `acc` is the
output buffer `self.buf`.  Fewer than 4 remaining bytes at a prefix
position is `FieldOutOfBounds`; a declared NAL size exceeding the
remaining bytes is `NalOutOfBounds`; otherwise emit the start code and
the unit and continue. -/
def decodeLoop : List Nat → List Nat → Except DecoderError (List Nat)
  | acc, [] => Except.ok acc
  | acc, b0 :: b1 :: b2 :: b3 :: rest =>
    if rest.length < u32be b0 b1 b2 b3 then
      Except.error DecoderError.NalOutOfBounds
    else
      decodeLoop (acc ++ [0, 0, 0, 1] ++ rest.take (u32be b0 b1 b2 b3))
        (rest.drop (u32be b0 b1 b2 b3))
  | _, _ => Except.error DecoderError.FieldOutOfBounds
termination_by _ l => l.length
decreasing_by
  simp_wf
  have hd := List.length_drop (u32be b0 b1 b2 b3) rest
  omega

/-- Mirrors `AVCCDecoder::decode` from `src/decoders/mod.rs`: the buffer
starts cleared and the loop runs over the whole input. -/
def AVCCDecoder.decode (data : List Nat) : Except DecoderError (List Nat) :=
  decodeLoop [] data

/-- 4-byte big-endian encoding of a length, for building well-formed
length-prefixed inputs (spec §4.1: "a sequence of 4-byte big-endian
length prefixes each followed by exactly that many bytes"). -/
def be32 (n : Nat) : List Nat :=
  [n / 16777216 % 256, n / 65536 % 256, n / 256 % 256, n % 256]

/-- A well-formed length-prefixed input assembled from a list of units. -/
def encodeUnits (units : List (List Nat)) : List Nat :=
  (units.map (fun u => be32 u.length ++ u)).flatten

/-- The expected reformatted output: per unit, the start code
`0x00000001` followed by the unit's bytes, concatenated in order. -/
def annexB (units : List (List Nat)) : List Nat :=
  (units.map (fun u => [0, 0, 0, 1] ++ u)).flatten

/-! ### List helper lemmas -/

theorem get?_some_getD {α : Type} (l : List α) (n : Nat) (d : α) (h : n < l.length) :
    l.get? n = some (l.getD n d) := by
  simp [List.getD_eq_getElem?_getD, List.getElem?_eq_getElem h]

theorem getD_append_lt {α : Type} (l l2 : List α) (n : Nat) (d : α) (h : n < l.length) :
    (l ++ l2).getD n d = l.getD n d := by
  simp [List.getD_eq_getElem?_getD, List.getElem?_append_left h]

theorem get?_concat_len {α : Type} (l : List α) (a : α) :
    (l ++ [a]).get? l.length = some a := by
  simp

/-! ### Branch characterizations of `decodeRest` and `FrameHolder.decode` -/

theorem decodeRest_cached {σ : Type} (dec : ImageDecoder σ) (s : σ) (fh : FrameHolder)
    (index n : Nat) (h : index < fh.decoded_frames.length) :
    decodeRest dec s fh index n = ⟨Except.ok (fh.decoded_frames.getD index []), fh, s, n⟩ := by
  unfold decodeRest
  rw [if_pos h, get?_some_getD _ _ _ h]

theorem decodeRest_err {σ : Type} (dec : ImageDecoder σ) (s : σ) (fh : FrameHolder)
    (index n : Nat) (s2 : σ) (e : DecoderError) (h : ¬ index < fh.decoded_frames.length)
    (hd : dec s (fh.raw_frames.getD index []) = (s2, Except.error e)) :
    decodeRest dec s fh index n = ⟨Except.error e, fh, s2, n + 1⟩ := by
  unfold decodeRest
  rw [if_neg h, hd]

theorem decodeRest_ok {σ : Type} (dec : ImageDecoder σ) (s : σ) (fh : FrameHolder)
    (index n : Nat) (s2 : σ) (d : List Nat) (h : fh.decoded_frames.length = index)
    (hd : dec s (fh.raw_frames.getD index []) = (s2, Except.ok d)) :
    decodeRest dec s fh index n =
      ⟨Except.ok d, { fh with decoded_frames := fh.decoded_frames ++ [d] }, s2, n + 1⟩ := by
  subst h
  unfold decodeRest
  rw [if_neg (by omega), hd]
  simp [get?_concat_len]

theorem decode_oob {σ : Type} (dec : ImageDecoder σ) (s : σ) (fh : FrameHolder)
    (index : Nat) (h : fh.raw_frames.length ≤ index) :
    FrameHolder.decode dec s fh index =
      ⟨Except.error DecoderError.IndexOutOfBounds, fh, s, 0⟩ := by
  unfold FrameHolder.decode
  rw [if_pos h]

theorem decode_norec {σ : Type} (dec : ImageDecoder σ) (s : σ) (fh : FrameHolder)
    (index : Nat) (h1 : ¬ fh.raw_frames.length ≤ index)
    (h2 : ¬ fh.decoded_frames.length < index) :
    FrameHolder.decode dec s fh index = decodeRest dec s fh index 0 := by
  unfold FrameHolder.decode
  rw [if_neg h1, dif_neg h2]

theorem decode_rec {σ : Type} (dec : ImageDecoder σ) (s : σ) (fh : FrameHolder)
    (index : Nat) (h1 : ¬ fh.raw_frames.length ≤ index)
    (h2 : fh.decoded_frames.length < index) :
    FrameHolder.decode dec s fh index =
      (match (FrameHolder.decode dec s fh (index - 1)).res with
       | Except.error _ => FrameHolder.decode dec s fh (index - 1)
       | Except.ok _ =>
         decodeRest dec (FrameHolder.decode dec s fh (index - 1)).decSt
           (FrameHolder.decode dec s fh (index - 1)).holder index
           (FrameHolder.decode dec s fh (index - 1)).calls) := by
  conv_lhs => unfold FrameHolder.decode
  rw [if_neg h1, dif_pos h2]

theorem getD_concat_len {α : Type} (l : List α) (a d : α) :
    (l ++ [a]).getD l.length d = a := by
  simp [List.getD_eq_getElem?_getD, get?_concat_len]

/-! ### Facts about `fillFrom` -/

theorem fillFrom_stop {σ : Type} (dec : ImageDecoder σ) (s : σ) (raw decoded : List (List Nat))
    (index : Nat) (h : index < decoded.length) :
    fillFrom dec s raw decoded index = (Except.ok (), decoded, s) := by
  unfold fillFrom
  rw [dif_neg (by omega)]

theorem fillFrom_step_err {σ : Type} (dec : ImageDecoder σ) (s : σ)
    (raw decoded : List (List Nat)) (index : Nat) (s2 : σ) (e : DecoderError)
    (h : decoded.length ≤ index)
    (hd : dec s (raw.getD decoded.length []) = (s2, Except.error e)) :
    fillFrom dec s raw decoded index = (Except.error e, decoded, s2) := by
  unfold fillFrom
  rw [dif_pos h, hd]

theorem fillFrom_step_ok {σ : Type} (dec : ImageDecoder σ) (s : σ)
    (raw decoded : List (List Nat)) (index : Nat) (s2 : σ) (d : List Nat)
    (h : decoded.length ≤ index)
    (hd : dec s (raw.getD decoded.length []) = (s2, Except.ok d)) :
    fillFrom dec s raw decoded index = fillFrom dec s2 raw (decoded ++ [d]) index := by
  conv_lhs => unfold fillFrom
  rw [dif_pos h, hd]

theorem fillFrom_specAux {σ : Type} (dec : ImageDecoder σ) (raw : List (List Nat))
    (index : Nat) : ∀ (k : Nat) (s : σ) (decoded : List (List Nat)),
    index + 1 - decoded.length = k →
    (∃ ext, (fillFrom dec s raw decoded index).2.1 = decoded ++ ext) ∧
    (∀ e, (fillFrom dec s raw decoded index).1 = Except.error e →
      decoded.length ≤ (fillFrom dec s raw decoded index).2.1.length ∧
      (fillFrom dec s raw decoded index).2.1.length ≤ index) ∧
    (∀ u, (fillFrom dec s raw decoded index).1 = Except.ok u →
      (fillFrom dec s raw decoded index).2.1.length = max decoded.length (index + 1)) := by
  intro k
  induction k with
  | zero =>
    intro s decoded hk
    rw [fillFrom_stop dec s raw decoded index (by omega)]
    refine ⟨⟨[], by simp⟩, ?_, ?_⟩
    · intro e he; cases he
    · intro u _; simp; omega
  | succ k ih =>
    intro s decoded hk
    rcases hdec : dec s (raw.getD decoded.length []) with ⟨s2, r⟩
    cases r with
    | error e =>
      rw [fillFrom_step_err dec s raw decoded index s2 e (by omega) hdec]
      refine ⟨⟨[], by simp⟩, ?_, ?_⟩
      · intro e2 _; constructor <;> simp <;> omega
      · intro u hu; cases hu
    | ok d =>
      rw [fillFrom_step_ok dec s raw decoded index s2 d (by omega) hdec]
      obtain ⟨⟨ext, hext⟩, herr, hok⟩ := ih s2 (decoded ++ [d]) (by simp; omega)
      refine ⟨⟨d :: ext, by rw [hext]; simp⟩, ?_, ?_⟩
      · intro e2 he2
        have := herr e2 he2
        simp at this
        constructor <;> omega
      · intro u hu
        have := hok u hu
        rw [this]
        simp; omega

theorem fillFrom_spec {σ : Type} (dec : ImageDecoder σ) (s : σ)
    (raw decoded : List (List Nat)) (index : Nat) :
    (∃ ext, (fillFrom dec s raw decoded index).2.1 = decoded ++ ext) ∧
    (∀ e, (fillFrom dec s raw decoded index).1 = Except.error e →
      decoded.length ≤ (fillFrom dec s raw decoded index).2.1.length ∧
      (fillFrom dec s raw decoded index).2.1.length ≤ index) ∧
    (∀ u, (fillFrom dec s raw decoded index).1 = Except.ok u →
      (fillFrom dec s raw decoded index).2.1.length = max decoded.length (index + 1)) :=
  fillFrom_specAux dec raw index (index + 1 - decoded.length) s decoded rfl

theorem fillFrom_split {σ : Type} (dec : ImageDecoder σ) (raw : List (List Nat))
    (index : Nat) (h1 : 1 ≤ index) : ∀ (k : Nat) (s : σ) (decoded : List (List Nat)),
    index - decoded.length = k → decoded.length ≤ index →
    fillFrom dec s raw decoded index =
      (match fillFrom dec s raw decoded (index - 1) with
       | (Except.error e, d2, s2) => (Except.error e, d2, s2)
       | (Except.ok _, d2, s2) => fillFrom dec s2 raw d2 index) := by
  intro k
  induction k with
  | zero =>
    intro s decoded hk hle
    rw [fillFrom_stop dec s raw decoded (index - 1) (by omega)]
  | succ k ih =>
    intro s decoded hk hle
    rcases hdec : dec s (raw.getD decoded.length []) with ⟨s2, r⟩
    cases r with
    | error e =>
      rw [fillFrom_step_err dec s raw decoded index s2 e (by omega) hdec,
        fillFrom_step_err dec s raw decoded (index - 1) s2 e (by omega) hdec]
    | ok d =>
      rw [fillFrom_step_ok dec s raw decoded index s2 d (by omega) hdec,
        fillFrom_step_ok dec s raw decoded (index - 1) s2 d (by omega) hdec,
        ih s2 (decoded ++ [d]) (by simp; omega) (by simp; omega)]

/-- Packages one `fillFrom` result as a `DecodeOutcome`, for stating that
`FrameHolder.decode` computes exactly the sequential back-fill: on
success the returned bytes are the final memo's slot `index`; the call
count is the number of fresh decodes performed. -/
def fillOutcome {σ : Type} (fh : FrameHolder) (index : Nat)
    (p : Except DecoderError Unit × List (List Nat) × σ) : DecodeOutcome σ :=
  match p with
  | (Except.error e, d2, s2) =>
    ⟨Except.error e, { fh with decoded_frames := d2 }, s2,
      d2.length + 1 - fh.decoded_frames.length⟩
  | (Except.ok _, d2, s2) =>
    ⟨Except.ok (d2.getD index []), { fh with decoded_frames := d2 }, s2,
      d2.length - fh.decoded_frames.length⟩

theorem fillOutcome_err {σ : Type} (fh : FrameHolder) (index : Nat)
    (e : DecoderError) (d2 : List (List Nat)) (s2 : σ) :
    fillOutcome fh index (Except.error e, d2, s2) =
      ⟨Except.error e, { fh with decoded_frames := d2 }, s2,
        d2.length + 1 - fh.decoded_frames.length⟩ := rfl

theorem fillOutcome_ok {σ : Type} (fh : FrameHolder) (index : Nat)
    (u : Unit) (d2 : List (List Nat)) (s2 : σ) :
    fillOutcome fh index (Except.ok u, d2, s2) =
      ⟨Except.ok (d2.getD index []), { fh with decoded_frames := d2 }, s2,
        d2.length - fh.decoded_frames.length⟩ := rfl

theorem decode_eq_fillFrom_base {σ : Type} (dec : ImageDecoder σ) (s : σ) (fh : FrameHolder)
    (index : Nat) (hraw : index < fh.raw_frames.length)
    (h2 : ¬ fh.decoded_frames.length < index) :
    FrameHolder.decode dec s fh index =
      fillOutcome fh index (fillFrom dec s fh.raw_frames fh.decoded_frames index) := by
  rw [decode_norec dec s fh index (by omega) h2]
  by_cases hc : index < fh.decoded_frames.length
  · rw [decodeRest_cached dec s fh index 0 hc,
      fillFrom_stop dec s fh.raw_frames fh.decoded_frames index hc, fillOutcome_ok]
    simp
  · have hl : fh.decoded_frames.length = index := by omega
    rcases hdec : dec s (fh.raw_frames.getD index []) with ⟨s2, r⟩
    cases r with
    | error e =>
      rw [decodeRest_err dec s fh index 0 s2 e (by omega) hdec,
        fillFrom_step_err dec s fh.raw_frames fh.decoded_frames index s2 e (by omega)
          (by rw [hl]; exact hdec),
        fillOutcome_err]
      simp [hl]
    | ok d =>
      rw [decodeRest_ok dec s fh index 0 s2 d hl hdec,
        fillFrom_step_ok dec s fh.raw_frames fh.decoded_frames index s2 d (by omega)
          (by rw [hl]; exact hdec),
        fillFrom_stop dec s2 fh.raw_frames (fh.decoded_frames ++ [d]) index
          (by simp; omega),
        fillOutcome_ok]
      rw [← hl, getD_concat_len]
      simp

theorem decode_rec_err {σ : Type} (dec : ImageDecoder σ) (s : σ) (fh : FrameHolder)
    (n : Nat) (e : DecoderError) (h1 : ¬ fh.raw_frames.length ≤ n + 1)
    (h2 : fh.decoded_frames.length < n + 1)
    (he : (FrameHolder.decode dec s fh n).res = Except.error e) :
    FrameHolder.decode dec s fh (n + 1) = FrameHolder.decode dec s fh n := by
  rw [decode_rec dec s fh (n + 1) h1 h2]
  simp only [Nat.add_sub_cancel]
  rcases ho : FrameHolder.decode dec s fh n with ⟨r, fh2, s2, c⟩
  rw [ho] at he
  simp only at he
  subst he
  rfl

theorem decode_rec_ok {σ : Type} (dec : ImageDecoder σ) (s : σ) (fh : FrameHolder)
    (n : Nat) (v : List Nat) (h1 : ¬ fh.raw_frames.length ≤ n + 1)
    (h2 : fh.decoded_frames.length < n + 1)
    (he : (FrameHolder.decode dec s fh n).res = Except.ok v) :
    FrameHolder.decode dec s fh (n + 1) =
      decodeRest dec (FrameHolder.decode dec s fh n).decSt
        (FrameHolder.decode dec s fh n).holder (n + 1)
        (FrameHolder.decode dec s fh n).calls := by
  rw [decode_rec dec s fh (n + 1) h1 h2]
  simp only [Nat.add_sub_cancel]
  rcases ho : FrameHolder.decode dec s fh n with ⟨r, fh2, s2, c⟩
  rw [ho] at he
  simp only at he
  subst he
  rfl

/-- `FrameHolder.decode` at an in-bounds index computes exactly the
spec's sequential back-fill `fillFrom` of the memo through `index`. -/
theorem decode_eq_fillFrom {σ : Type} (dec : ImageDecoder σ) :
    ∀ (index : Nat) (s : σ) (fh : FrameHolder), index < fh.raw_frames.length →
    FrameHolder.decode dec s fh index =
      fillOutcome fh index (fillFrom dec s fh.raw_frames fh.decoded_frames index) := by
  intro index
  induction index with
  | zero =>
    intro s fh hraw
    exact decode_eq_fillFrom_base dec s fh 0 hraw (by omega)
  | succ n ih =>
    intro s fh hraw
    by_cases hc : fh.decoded_frames.length < n + 1
    · have hsplit := fillFrom_split dec fh.raw_frames (n + 1) (by omega)
        (n + 1 - fh.decoded_frames.length) s fh.decoded_frames rfl (by omega)
      simp only [Nat.add_sub_cancel] at hsplit
      have ihn := ih s fh (by omega)
      rcases hfn : fillFrom dec s fh.raw_frames fh.decoded_frames n with ⟨r, d2, s2⟩
      rw [hfn] at ihn hsplit
      cases r with
      | error e =>
        rw [fillOutcome_err] at ihn
        have he : (FrameHolder.decode dec s fh n).res = Except.error e := by rw [ihn]
        have hsplit2 : fillFrom dec s fh.raw_frames fh.decoded_frames (n + 1) =
            (Except.error e, d2, s2) := hsplit
        rw [decode_rec_err dec s fh n e (by omega) hc he, ihn, hsplit2, fillOutcome_err]
      | ok u =>
        rw [fillOutcome_ok] at ihn
        have he : (FrameHolder.decode dec s fh n).res = Except.ok (d2.getD n []) := by
          rw [ihn]
        have hsplit2 : fillFrom dec s fh.raw_frames fh.decoded_frames (n + 1) =
            fillFrom dec s2 fh.raw_frames d2 (n + 1) := hsplit
        have hok := (fillFrom_spec dec s fh.raw_frames fh.decoded_frames n).2.2 u
          (by rw [hfn])
        rw [hfn] at hok
        have hd2 : d2.length = n + 1 := by
          simp at hok
          omega
        rw [decode_rec_ok dec s fh n (d2.getD n []) (by omega) hc he]
        simp only [ihn]
        rw [hsplit2]
        rcases hdec : dec s2 (fh.raw_frames.getD (n + 1) []) with ⟨s3, r3⟩
        cases r3 with
        | error e2 =>
          rw [decodeRest_err dec s2 ⟨fh.raw_frames, fh.ts, d2⟩ (n + 1)
              (d2.length - fh.decoded_frames.length) s3 e2
              (by show ¬ n + 1 < d2.length; omega) hdec,
            fillFrom_step_err dec s2 fh.raw_frames d2 (n + 1) s3 e2 (by omega)
              (by rw [hd2]; exact hdec),
            fillOutcome_err]
          have hcount : d2.length - fh.decoded_frames.length + 1 =
              d2.length + 1 - fh.decoded_frames.length := by omega
          rw [hcount]
        | ok d3 =>
          rw [decodeRest_ok dec s2 ⟨fh.raw_frames, fh.ts, d2⟩ (n + 1)
              (d2.length - fh.decoded_frames.length) s3 d3
              (by show d2.length = n + 1; exact hd2) hdec,
            fillFrom_step_ok dec s2 fh.raw_frames d2 (n + 1) s3 d3 (by omega)
              (by rw [hd2]; exact hdec),
            fillFrom_stop dec s3 fh.raw_frames (d2 ++ [d3]) (n + 1) (by simp; omega),
            fillOutcome_ok]
          rw [← hd2, getD_concat_len]
          have hcount : d2.length - fh.decoded_frames.length + 1 =
              (d2 ++ [d3]).length - fh.decoded_frames.length := by simp; omega
          rw [hcount]
    · exact decode_eq_fillFrom_base dec s fh (n + 1) hraw hc

theorem decode_cached {σ : Type} (dec : ImageDecoder σ) (s : σ) (fh : FrameHolder)
    (index : Nat) (h1 : index < fh.raw_frames.length)
    (h2 : index < fh.decoded_frames.length) :
    FrameHolder.decode dec s fh index =
      ⟨Except.ok (fh.decoded_frames.getD index []), fh, s, 0⟩ := by
  rw [decode_norec dec s fh index (by omega) (by omega),
    decodeRest_cached dec s fh index 0 h2]

/-- `decode` never touches `raw_frames` or the timestamp, and only ever
appends to `decoded_frames`. -/
theorem decode_frames {σ : Type} (dec : ImageDecoder σ) (s : σ) (fh : FrameHolder)
    (index : Nat) :
    (FrameHolder.decode dec s fh index).holder.raw_frames = fh.raw_frames ∧
    (FrameHolder.decode dec s fh index).holder.ts = fh.ts ∧
    (∃ ext, (FrameHolder.decode dec s fh index).holder.decoded_frames =
      fh.decoded_frames ++ ext) := by
  by_cases h : index < fh.raw_frames.length
  · rw [decode_eq_fillFrom dec index s fh h]
    obtain ⟨⟨ext, hext⟩, -, -⟩ := fillFrom_spec dec s fh.raw_frames fh.decoded_frames index
    rcases hf : fillFrom dec s fh.raw_frames fh.decoded_frames index with ⟨r, d2, s2⟩
    rw [hf] at hext
    simp only at hext
    cases r with
    | error e => rw [fillOutcome_err]; exact ⟨rfl, rfl, ext, hext⟩
    | ok u => rw [fillOutcome_ok]; exact ⟨rfl, rfl, ext, hext⟩
  · rw [decode_oob dec s fh index (by omega)]
    exact ⟨rfl, rfl, [], by simp⟩

/-- On success, `decode` leaves the memo filled exactly through `index`,
and the returned bytes are the memo's slot `index`. -/
theorem decode_ok_spec {σ : Type} (dec : ImageDecoder σ) (s : σ) (fh : FrameHolder)
    (index : Nat) (v : List Nat)
    (hok : (FrameHolder.decode dec s fh index).res = Except.ok v) :
    index < fh.raw_frames.length ∧
    (FrameHolder.decode dec s fh index).holder.decoded_frames.length =
      max fh.decoded_frames.length (index + 1) ∧
    (FrameHolder.decode dec s fh index).holder.decoded_frames.getD index [] = v := by
  by_cases h : index < fh.raw_frames.length
  · refine ⟨h, ?_⟩
    rw [decode_eq_fillFrom dec index s fh h] at hok ⊢
    obtain ⟨-, -, hlen⟩ := fillFrom_spec dec s fh.raw_frames fh.decoded_frames index
    rcases hf : fillFrom dec s fh.raw_frames fh.decoded_frames index with ⟨r, d2, s2⟩
    rw [hf] at hok hlen
    cases r with
    | error e => rw [fillOutcome_err] at hok; cases hok
    | ok u =>
      rw [fillOutcome_ok] at hok ⊢
      simp only at hok hlen ⊢
      refine ⟨hlen u trivial, ?_⟩
      exact (Except.ok.inj hok)
  · rw [decode_oob dec s fh index (by omega)] at hok
    cases hok

theorem decodeFuel_eq {σ : Type} (dec : ImageDecoder σ) :
    ∀ (fuel index : Nat) (s : σ) (fh : FrameHolder), index < fuel →
    FrameHolder.decodeFuel dec fuel s fh index =
      some (FrameHolder.decode dec s fh index) := by
  intro fuel
  induction fuel with
  | zero => intro index s fh h; omega
  | succ fuel ih =>
    intro index s fh h
    simp only [FrameHolder.decodeFuel]
    by_cases h1 : fh.raw_frames.length ≤ index
    · rw [decode_oob dec s fh index h1, if_pos h1]
    · rw [if_neg h1]
      by_cases h2 : fh.decoded_frames.length < index
      · rw [if_pos h2, ih (index - 1) s fh (by omega),
          decode_rec dec s fh index h1 h2]
        rcases ho : FrameHolder.decode dec s fh (index - 1) with ⟨r, fh2, s2, c⟩
        cases r <;> rfl
      · rw [if_neg h2, decode_norec dec s fh index h1 h2]

/-- Evaluate `decode` at a concrete input through its fuel-indexed copy
(which reduces by `decide`, unlike the well-founded original). -/
theorem decode_of_fuel {σ : Type} (dec : ImageDecoder σ) (s : σ) (fh : FrameHolder)
    (index fuel : Nat) (o : DecodeOutcome σ) (hlt : index < fuel)
    (h : FrameHolder.decodeFuel dec fuel s fh index = some o) :
    FrameHolder.decode dec s fh index = o := by
  have h2 := decodeFuel_eq dec fuel index s fh hlt
  rw [h] at h2
  exact (Option.some.inj h2).symm

/-- A trivial concrete decoder (identity on the bytes, stateless), used
to instantiate theorems at concrete inputs. -/
def decTriv : ImageDecoder Unit := fun s b => (s, Except.ok b)

/-- States of the cache/decoder pair reachable from a start state through
`FrameHolder.decode` calls only — i.e. within one key-frame epoch (no
`set_iframe` and no `drain` in between). -/
inductive DecodeReach {σ : Type} (dec : ImageDecoder σ) :
    FrameHolder × σ → FrameHolder × σ → Prop
  | refl (p : FrameHolder × σ) : DecodeReach dec p p
  | step (p : FrameHolder × σ) (fh : FrameHolder) (s : σ) (k : Nat) :
      DecodeReach dec p (fh, s) →
      DecodeReach dec p
        ((FrameHolder.decode dec s fh k).holder, (FrameHolder.decode dec s fh k).decSt)

theorem decodeReach_extends {σ : Type} (dec : ImageDecoder σ)
    (p q : FrameHolder × σ) (h : DecodeReach dec p q) :
    q.1.raw_frames = p.1.raw_frames ∧
    ∃ ext, q.1.decoded_frames = p.1.decoded_frames ++ ext := by
  induction h with
  | refl => exact ⟨rfl, [], by simp⟩
  | step fh s k _ ih =>
    obtain ⟨hraw, ext, hext⟩ := ih
    obtain ⟨hraw2, -, ext2, hext2⟩ := decode_frames dec s fh k
    refine ⟨by rw [hraw2]; exact hraw, ext ++ ext2, ?_⟩
    rw [hext2, hext, List.append_assoc]

/-! ### Claims about `FrameHolder::decode` (C1, C2, C3, C10) -/

/-- C1: `decode_through(chain, index)` returns `IndexOutOfBounds` when
`index >= len(coded)`; when slot `index` is already memoized it is
returned directly with no decoder invocation and no state change; and in
general (in-bounds) the call computes exactly the spec's recursive
back-fill: decode `coded[len(decoded)] .. coded[index]` in order,
appending each result to `decoded`, returning slot `index` on success
(`fillOutcome`/`fillFrom` package precisely that algorithm). -/
theorem claim_C1 {σ : Type} (dec : ImageDecoder σ) (s : σ) (fh : FrameHolder)
    (index : Nat) :
    (fh.raw_frames.length ≤ index →
      FrameHolder.decode dec s fh index =
        ⟨Except.error DecoderError.IndexOutOfBounds, fh, s, 0⟩) ∧
    (index < fh.raw_frames.length → index < fh.decoded_frames.length →
      FrameHolder.decode dec s fh index =
        ⟨Except.ok (fh.decoded_frames.getD index []), fh, s, 0⟩) ∧
    (index < fh.raw_frames.length →
      FrameHolder.decode dec s fh index =
        fillOutcome fh index (fillFrom dec s fh.raw_frames fh.decoded_frames index)) :=
  ⟨decode_oob dec s fh index,
   fun h1 h2 => decode_cached dec s fh index h1 h2,
   fun h => decode_eq_fillFrom dec index s fh h⟩

theorem claim_C1_witness :
    FrameHolder.decode decTriv () ⟨[[1]], 0, []⟩ 3 =
      ⟨Except.error DecoderError.IndexOutOfBounds, ⟨[[1]], 0, []⟩, (), 0⟩ ∧
    FrameHolder.decode decTriv () ⟨[[1], [2]], 0, [[9], [8]]⟩ 1 =
      ⟨Except.ok ([[9], [8]].getD 1 []), ⟨[[1], [2]], 0, [[9], [8]]⟩, (), 0⟩ ∧
    FrameHolder.decode decTriv () ⟨[[1], [2]], 0, []⟩ 1 =
      fillOutcome ⟨[[1], [2]], 0, []⟩ 1 (fillFrom decTriv () [[1], [2]] [] 1) :=
  ⟨(claim_C1 decTriv () ⟨[[1]], 0, []⟩ 3).1 (by decide),
   (claim_C1 decTriv () ⟨[[1], [2]], 0, [[9], [8]]⟩ 1).2.1 (by decide) (by decide),
   (claim_C1 decTriv () ⟨[[1], [2]], 0, []⟩ 1).2.2 (by decide)⟩

/-- C2: once `decode_through(i)` has succeeded, every later
`decode_through(j)` with `j ≤ i` in the same epoch (any state reachable
from the post-success state through further `decode` calls only) makes
zero decoder invocations, changes nothing, and returns the bytes
memoized at slot `j` by the original success. -/
theorem claim_C2 {σ : Type} (dec : ImageDecoder σ) (s : σ) (fh : FrameHolder)
    (i : Nat) (v : List Nat)
    (hok : (FrameHolder.decode dec s fh i).res = Except.ok v)
    (fh2 : FrameHolder) (s2 : σ)
    (hreach : DecodeReach dec
      ((FrameHolder.decode dec s fh i).holder, (FrameHolder.decode dec s fh i).decSt)
      (fh2, s2))
    (j : Nat) (hj : j ≤ i) :
    FrameHolder.decode dec s2 fh2 j =
      ⟨Except.ok ((FrameHolder.decode dec s fh i).holder.decoded_frames.getD j []),
        fh2, s2, 0⟩ := by
  obtain ⟨hraw, hlen, -⟩ := decode_ok_spec dec s fh i v hok
  obtain ⟨hraw1, -, -⟩ := decode_frames dec s fh i
  obtain ⟨hraw2, ext, hext⟩ := decodeReach_extends dec _ _ hreach
  have hjlen : j < (FrameHolder.decode dec s fh i).holder.decoded_frames.length := by
    omega
  have hjraw : j < fh2.raw_frames.length := by
    rw [hraw2, hraw1]
    omega
  have hjdec : j < fh2.decoded_frames.length := by
    rw [hext]
    simp
    omega
  rw [decode_cached dec s2 fh2 j hjraw hjdec, hext,
    getD_append_lt _ ext j [] hjlen]

theorem claim_C2_witness :
    FrameHolder.decode decTriv () ⟨[[1], [2]], 0, [[1], [2]]⟩ 0 =
      ⟨Except.ok ((FrameHolder.decode decTriv () ⟨[[1], [2]], 0, []⟩ 1).holder.decoded_frames.getD 0 []),
        ⟨[[1], [2]], 0, [[1], [2]]⟩, (), 0⟩ := by
  have hconc : FrameHolder.decode decTriv () ⟨[[1], [2]], 0, []⟩ 1 =
      ⟨Except.ok [2], ⟨[[1], [2]], 0, [[1], [2]]⟩, (), 2⟩ :=
    decode_of_fuel decTriv () ⟨[[1], [2]], 0, []⟩ 1 2 _ (by decide) (by decide)
  exact claim_C2 decTriv () ⟨[[1], [2]], 0, []⟩ 1 [2]
    (by rw [hconc]) ⟨[[1], [2]], 0, [[1], [2]]⟩ ()
    (by rw [hconc]; exact DecodeReach.refl _) 0 (by decide)

/-- The cache invariant of the spec's data model: the decoded memo is
never longer than the coded sequence. -/
def cacheInv (fh : FrameHolder) : Prop :=
  fh.decoded_frames.length ≤ fh.raw_frames.length

instance (fh : FrameHolder) : Decidable (cacheInv fh) := by
  unfold cacheInv
  infer_instance

theorem decode_inv {σ : Type} (dec : ImageDecoder σ) (s : σ) (fh : FrameHolder)
    (index : Nat) (h : fh.decoded_frames.length ≤ fh.raw_frames.length) :
    (FrameHolder.decode dec s fh index).holder.decoded_frames.length ≤
      (FrameHolder.decode dec s fh index).holder.raw_frames.length := by
  obtain ⟨hraw, -, -⟩ := decode_frames dec s fh index
  rw [hraw]
  by_cases hin : index < fh.raw_frames.length
  · rw [decode_eq_fillFrom dec index s fh hin]
    obtain ⟨-, herr, hok⟩ := fillFrom_spec dec s fh.raw_frames fh.decoded_frames index
    rcases hf : fillFrom dec s fh.raw_frames fh.decoded_frames index with ⟨r, d2, s2⟩
    rw [hf] at herr hok
    cases r with
    | error e =>
      have := herr e rfl
      simp only at this
      rw [fillOutcome_err]
      simp only
      omega
    | ok u =>
      have := hok u rfl
      simp only at this
      rw [fillOutcome_ok]
      simp only
      omega
  · rw [decode_oob dec s fh index (by omega)]
    exact h

/-- C3: every cache operation preserves `len(decoded) ≤ len(coded)`, and
`decode` populates the memo only by appending at the end (so slot `i` is
filled only after slots `0..i-1`, monotonically by index);
`set_iframe`/`drain` trivially re-establish the invariant. -/
theorem claim_C3 {σ : Type} (dec : ImageDecoder σ) :
    (∀ (fh : FrameHolder) (now : Nat) (b : List Nat),
      cacheInv (fh.set_iframe now b)) ∧
    (∀ (fh : FrameHolder) (b : List Nat), cacheInv fh → cacheInv (fh.add_image b)) ∧
    (∀ (fh : FrameHolder) (now : Nat), cacheInv (fh.drain now)) ∧
    (∀ (s : σ) (fh : FrameHolder) (index : Nat), cacheInv fh →
      cacheInv (FrameHolder.decode dec s fh index).holder ∧
      ∃ ext, (FrameHolder.decode dec s fh index).holder.decoded_frames =
        fh.decoded_frames ++ ext) := by
  refine ⟨fun fh now b => by simp [cacheInv, FrameHolder.set_iframe],
    fun fh b h => by simp [cacheInv, FrameHolder.add_image] at h ⊢; omega,
    fun fh now => by simp [cacheInv, FrameHolder.drain],
    fun s fh index h => ⟨decode_inv dec s fh index h, (decode_frames dec s fh index).2.2⟩⟩

theorem claim_C3_witness :
    cacheInv (FrameHolder.set_iframe ⟨[], 0, []⟩ 1 [5]) ∧
    cacheInv (FrameHolder.add_image ⟨[[1]], 0, [[1]]⟩ [2]) ∧
    cacheInv (FrameHolder.drain ⟨[[1]], 0, [[1]]⟩ 2) ∧
    (cacheInv (FrameHolder.decode decTriv () ⟨[[1], [2]], 0, []⟩ 1).holder ∧
      ∃ ext, (FrameHolder.decode decTriv () ⟨[[1], [2]], 0, []⟩ 1).holder.decoded_frames =
        ([] : List (List Nat)) ++ ext) :=
  ⟨(claim_C3 decTriv).1 ⟨[], 0, []⟩ 1 [5],
   (claim_C3 decTriv).2.1 ⟨[[1]], 0, [[1]]⟩ [2] (by decide),
   (claim_C3 decTriv).2.2.1 ⟨[[1]], 0, [[1]]⟩ 2,
   (claim_C3 decTriv).2.2.2 () ⟨[[1], [2]], 0, []⟩ 1 (by decide)⟩

/-- C10: `FrameHolder::decode` terminates on every input: the recursion
is guarded by `len(decoded) < index` (so `index - 1` never underflows
and strictly decreases), hence a fuel of `index + 1` always suffices —
the structurally recursive fuel-indexed copy never runs out of fuel and
agrees with the well-founded definition everywhere. -/
theorem claim_C10 {σ : Type} (dec : ImageDecoder σ) (fuel index : Nat) (s : σ)
    (fh : FrameHolder) (h : index < fuel) :
    FrameHolder.decodeFuel dec fuel s fh index =
      some (FrameHolder.decode dec s fh index) :=
  decodeFuel_eq dec fuel index s fh h

theorem claim_C10_witness :
    FrameHolder.decodeFuel decTriv 3 () ⟨[[1], [2], [3]], 0, []⟩ 2 =
      some (FrameHolder.decode decTriv () ⟨[[1], [2], [3]], 0, []⟩ 2) :=
  claim_C10 decTriv 3 2 () ⟨[[1], [2], [3]], 0, []⟩ (by decide)

/-! ### Claims about the serving loop (C4, C5, C6, C7) -/

/-- C4 counterexample: the session loop appends a delta frame even when
the frame buffer is empty — the code only checks the cap
(`raw_len() >= buf_size`), not emptiness.  Starting from the empty
initial holder with cap 1, a delta frame (`is_random_access_point` =
false) is appended and becomes `coded[0]`, so `coded[0]` is not a key
frame. -/
theorem claim_C4_counterexample :
    (FrameHolder.new 0).is_empty = true ∧
    (sessionStep ⟨1, 10⟩ decTriv ⟨FrameHolder.new 0, ()⟩
      (SessionEvent.videoFrame false [5] 1)).1.holder.raw_frames = [[5]] := by
  decide

/-- C4 (amended): in the serving loop a delta frame is appended exactly
when `coded_len() < cap`, regardless of whether the buffer is empty; in
particular a delta frame arriving into an empty buffer (cap ≥ 1) is
appended and becomes `coded[0]`, so `coded[0]` need not be a key
frame. -/
theorem claim_C4_amended {σ : Type} (cfg : SessionConfig) (dec : ImageDecoder σ)
    (st : ActorState σ) (data : List Nat) (now : Nat) :
    sessionStep cfg dec st (SessionEvent.videoFrame false data now) =
      (if st.holder.raw_len < cfg.buf_size
        then (⟨st.holder.add_image data, st.decSt⟩, StepOutput.silent)
        else (st, StepOutput.silent)) := by
  simp only [sessionStep, Bool.false_eq_true, if_false]
  by_cases h : cfg.buf_size ≤ st.holder.raw_len
  · rw [if_pos h, if_neg (by omega)]
  · rw [if_neg h, if_pos (by omega)]

/-- C5: a frame-decode request handled (buffer non-empty) while
`age() > frame_lifetime` drains the buffer — the post-state holder is
empty, both sequences cleared — and is answered with `OldFrame`. -/
theorem claim_C5 {σ : Type} (cfg : SessionConfig) (dec : ImageDecoder σ)
    (st : ActorState σ) (index now : Nat) (hne : st.holder.is_empty = false)
    (hold : cfg.frame_lifetime < st.holder.elapsed now) :
    sessionStep cfg dec st (SessionEvent.frameRequest index now) =
      (⟨st.holder.drain now, st.decSt⟩,
        StepOutput.response (Except.error SessionError.OldFrame)) ∧
    (st.holder.drain now).is_empty = true ∧
    (st.holder.drain now).raw_frames = [] ∧
    (st.holder.drain now).decoded_frames = [] := by
  refine ⟨?_, rfl, rfl, rfl⟩
  simp only [sessionStep]
  rw [if_neg (by simp [hne]), if_pos hold]

theorem claim_C5_witness :
    sessionStep (⟨2, 3⟩ : SessionConfig) decTriv
        (⟨⟨[[1]], 0, []⟩, ()⟩ : ActorState Unit) (SessionEvent.frameRequest 0 10) =
      (⟨FrameHolder.drain ⟨[[1]], 0, []⟩ 10, ()⟩,
        StepOutput.response (Except.error SessionError.OldFrame)) ∧
    (FrameHolder.drain ⟨[[1]], 0, []⟩ 10).is_empty = true ∧
    (FrameHolder.drain ⟨[[1]], 0, []⟩ 10).raw_frames = [] ∧
    (FrameHolder.drain ⟨[[1]], 0, []⟩ 10).decoded_frames = [] :=
  claim_C5 ⟨2, 3⟩ decTriv ⟨⟨[[1]], 0, []⟩, ()⟩ 0 10 (by decide) (by decide)

/-- C6 counterexample: lifetime 0, cap 1.  A key frame is ingested at
time 0; a request at time 1 is answered `OldFrame` and drains the
buffer; then a delta frame arrives (appended into the empty buffer) and
the very next request — still before any new key frame — is answered
with success (the decoded delta bytes), not with `IndexOutOfBounds`. -/
theorem claim_C6_counterexample :
    (sessionStep ⟨1, 0⟩ decTriv
        (sessionRun ⟨1, 0⟩ decTriv ⟨FrameHolder.new 0, ()⟩
          [SessionEvent.videoFrame true [9] 0])
        (SessionEvent.frameRequest 0 1)).2 =
      StepOutput.response (Except.error SessionError.OldFrame) ∧
    (sessionStep ⟨1, 0⟩ decTriv
        (sessionRun ⟨1, 0⟩ decTriv ⟨FrameHolder.new 0, ()⟩
          [SessionEvent.videoFrame true [9] 0, SessionEvent.frameRequest 0 1,
            SessionEvent.videoFrame false [5] 1])
        (SessionEvent.frameRequest 0 1)).2 =
      StepOutput.response (Except.ok ⟨[5], 1⟩) := by
  constructor
  · decide
  · have h3 : sessionRun ⟨1, 0⟩ decTriv ⟨FrameHolder.new 0, ()⟩
        [SessionEvent.videoFrame true [9] 0, SessionEvent.frameRequest 0 1,
          SessionEvent.videoFrame false [5] 1] = ⟨⟨[[5]], 1, []⟩, ()⟩ := by decide
    have hdec0 : FrameHolder.decode decTriv () ⟨[[5]], 1, []⟩ 0 =
        ⟨Except.ok [5], ⟨[[5]], 1, [[5]]⟩, (), 1⟩ :=
      decode_of_fuel decTriv () ⟨[[5]], 1, []⟩ 0 1 _ (by decide) (by decide)
    rw [h3]
    simp [sessionStep, hdec0, FrameHolder.is_empty, FrameHolder.elapsed,
      FrameHolder.get_ts]

/-- C6 (amended): after an `OldFrame` answer the buffer is fully drained
(both sequences empty), and while the buffer remains empty no
frame-decode request is handled at all (the `select!` arm is guarded by
non-emptiness), so no request is ever answered — successfully or
otherwise — from the drained data.  (A delta frame arriving before the
next key frame re-fills the buffer, and a later request can then succeed
against that fresh post-drain data, which is what the counterexample
exhibits.) -/
theorem claim_C6_amended {σ : Type} (cfg : SessionConfig) (dec : ImageDecoder σ) :
    (∀ (st : ActorState σ) (index now : Nat), st.holder.is_empty = true →
      sessionStep cfg dec st (SessionEvent.frameRequest index now) =
        (st, StepOutput.silent)) ∧
    (∀ (st : ActorState σ) (index now : Nat) (st2 : ActorState σ),
      sessionStep cfg dec st (SessionEvent.frameRequest index now) =
        (st2, StepOutput.response (Except.error SessionError.OldFrame)) →
      st2.holder.raw_frames = [] ∧ st2.holder.decoded_frames = [] ∧
        st2.holder.is_empty = true) := by
  constructor
  · intro st index now h
    simp only [sessionStep]
    rw [if_pos h]
  · intro st index now st2 h
    by_cases h1 : st.holder.is_empty = true
    · simp only [sessionStep] at h
      rw [if_pos h1] at h
      simp at h
    · simp only [sessionStep] at h
      rw [if_neg h1] at h
      by_cases h2 : cfg.frame_lifetime < st.holder.elapsed now
      · rw [if_pos h2] at h
        injection h with ha hb
        subst ha
        exact ⟨rfl, rfl, rfl⟩
      · rw [if_neg h2] at h
        rcases ho : FrameHolder.decode dec st.decSt st.holder index with ⟨r, fh2, s2, c⟩
        rw [ho] at h
        cases r with
        | error e => simp at h
        | ok v => simp at h

theorem claim_C6_witness :
    sessionStep (⟨1, 0⟩ : SessionConfig) decTriv
        (⟨⟨[], 5, []⟩, ()⟩ : ActorState Unit) (SessionEvent.frameRequest 0 9) =
      (⟨⟨[], 5, []⟩, ()⟩, StepOutput.silent) ∧
    ((⟨⟨[], 5, []⟩, ()⟩ : ActorState Unit).holder.raw_frames = [] ∧
      (⟨⟨[], 5, []⟩, ()⟩ : ActorState Unit).holder.decoded_frames = [] ∧
      (⟨⟨[], 5, []⟩, ()⟩ : ActorState Unit).holder.is_empty = true) :=
  ⟨(claim_C6_amended ⟨1, 0⟩ decTriv).1 ⟨⟨[], 5, []⟩, ()⟩ 0 9 (by decide),
   (claim_C6_amended ⟨1, 0⟩ decTriv).2 ⟨⟨[[9]], 0, []⟩, ()⟩ 0 5 ⟨⟨[], 5, []⟩, ()⟩
     (by decide)⟩

/-- C7 counterexample: with a configured cap of 0, ingesting a key frame
still makes `coded_len() = 1 > 0` — `set_iframe` never checks the cap,
so "coded_len() never exceeds the configured cap" fails for cap 0. -/
theorem claim_C7_counterexample :
    ¬ (sessionRun ⟨0, 10⟩ decTriv ⟨FrameHolder.new 0, ()⟩
        [SessionEvent.videoFrame true [7] 1]).holder.raw_len ≤ (0 : Nat) := by
  decide

theorem step_raw_len {σ : Type} (cfg : SessionConfig) (dec : ImageDecoder σ)
    (st : ActorState σ) (e : SessionEvent) (hcap : 1 ≤ cfg.buf_size)
    (h : st.holder.raw_len ≤ cfg.buf_size) :
    (sessionStep cfg dec st e).1.holder.raw_len ≤ cfg.buf_size := by
  cases e with
  | videoFrame isRap data now =>
    cases isRap with
    | true =>
      simp only [sessionStep, if_pos rfl]
      simp [FrameHolder.raw_len, FrameHolder.set_iframe]
      omega
    | false =>
      simp only [sessionStep, Bool.false_eq_true, if_false]
      by_cases h2 : cfg.buf_size ≤ st.holder.raw_len
      · rw [if_pos h2]
        exact h
      · rw [if_neg h2]
        simp only [FrameHolder.raw_len, not_le] at h2
        simp only [FrameHolder.raw_len, FrameHolder.add_image, List.length_append,
          List.length_cons, List.length_nil]
        omega
  | frameRequest index now =>
    simp only [sessionStep]
    by_cases h1 : st.holder.is_empty = true
    · rw [if_pos h1]
      exact h
    · rw [if_neg h1]
      by_cases h2 : cfg.frame_lifetime < st.holder.elapsed now
      · rw [if_pos h2]
        simp [FrameHolder.raw_len, FrameHolder.drain]
      · rw [if_neg h2]
        obtain ⟨hraw, -, -⟩ := decode_frames dec st.decSt st.holder index
        rcases ho : FrameHolder.decode dec st.decSt st.holder index with ⟨r, fh2, s2, c⟩
        rw [ho] at hraw
        simp only at hraw
        cases r with
        | error e2 =>
          simp only [FrameHolder.raw_len] at h ⊢
          rw [hraw]
          exact h
        | ok v =>
          simp only [FrameHolder.raw_len] at h ⊢
          rw [hraw]
          exact h
  | register => exact h

theorem run_raw_len {σ : Type} (cfg : SessionConfig) (dec : ImageDecoder σ)
    (hcap : 1 ≤ cfg.buf_size) :
    ∀ (events : List SessionEvent) (st : ActorState σ),
    st.holder.raw_len ≤ cfg.buf_size →
    (sessionRun cfg dec st events).holder.raw_len ≤ cfg.buf_size := by
  intro events
  induction events with
  | nil => intro st h; exact h
  | cons e es ih =>
    intro st h
    exact ih (sessionStep cfg dec st e).1 (step_raw_len cfg dec st e hcap h)

/-- C7 (amended): appending a delta frame once `coded_len()` has reached
the cap is a no-op (the newest frame is dropped), and provided the
configured cap is at least 1, `coded_len()` never exceeds the cap in any
state reachable from the initial empty holder.  (The `cap ≥ 1` proviso
is forced: `set_iframe` ignores the cap, so with cap 0 a key frame still
makes `coded_len() = 1`.) -/
theorem claim_C7_amended {σ : Type} (cfg : SessionConfig) (dec : ImageDecoder σ) :
    (∀ (st : ActorState σ) (data : List Nat) (now : Nat),
      cfg.buf_size ≤ st.holder.raw_len →
      sessionStep cfg dec st (SessionEvent.videoFrame false data now) =
        (st, StepOutput.silent)) ∧
    (1 ≤ cfg.buf_size → ∀ (t0 : Nat) (s0 : σ) (events : List SessionEvent),
      (sessionRun cfg dec ⟨FrameHolder.new t0, s0⟩ events).holder.raw_len ≤
        cfg.buf_size) := by
  constructor
  · intro st data now h
    simp only [sessionStep, Bool.false_eq_true, if_false]
    rw [if_pos h]
  · intro hcap t0 s0 events
    exact run_raw_len cfg dec hcap events ⟨FrameHolder.new t0, s0⟩
      (by simp [FrameHolder.raw_len, FrameHolder.new])

theorem claim_C7_witness :
    sessionStep (⟨1, 5⟩ : SessionConfig) decTriv
        (⟨⟨[[9]], 0, []⟩, ()⟩ : ActorState Unit) (SessionEvent.videoFrame false [4] 7) =
      (⟨⟨[[9]], 0, []⟩, ()⟩, StepOutput.silent) ∧
    (sessionRun (⟨1, 5⟩ : SessionConfig) decTriv ⟨FrameHolder.new 0, ()⟩
      [SessionEvent.videoFrame true [3] 0,
        SessionEvent.videoFrame false [4] 0]).holder.raw_len ≤ 1 :=
  ⟨(claim_C7_amended ⟨1, 5⟩ decTriv).1 ⟨⟨[[9]], 0, []⟩, ()⟩ [4] 7 (by decide),
   (claim_C7_amended ⟨1, 5⟩ decTriv).2 (by decide) 0 ()
     [SessionEvent.videoFrame true [3] 0, SessionEvent.videoFrame false [4] 0]⟩

/-! ### Claims about the AVCC reformatter (C8, C9) -/

theorem u32be_be32 (n : Nat) (h : n < 4294967296) :
    u32be (n / 16777216 % 256) (n / 65536 % 256) (n / 256 % 256) (n % 256) = n := by
  unfold u32be
  omega

theorem decodeLoop_encode :
    ∀ (units : List (List Nat)), (∀ u ∈ units, u.length < 4294967296) →
    ∀ (acc : List Nat),
    decodeLoop acc (encodeUnits units) = Except.ok (acc ++ annexB units) := by
  intro units
  induction units with
  | nil =>
    intro _ acc
    simp [encodeUnits, annexB, decodeLoop]
  | cons u us ih =>
    intro h acc
    have hlen : u.length < 4294967296 := h u (by simp)
    simp only [encodeUnits, List.map_cons, List.flatten_cons, be32,
      List.cons_append, List.nil_append, List.append_assoc]
    simp only [decodeLoop, u32be_be32 u.length hlen]
    rw [if_neg (by simp), List.take_left' rfl, List.drop_left' rfl]
    have ih2 := ih (fun v hv => h v (List.mem_cons_of_mem u hv))
      (acc ++ [0, 0, 0, 1] ++ u)
    simp only [encodeUnits, be32, List.cons_append, List.nil_append] at ih2
    rw [ih2]
    simp [annexB]

theorem annexB_length :
    ∀ (units : List (List Nat)),
    (annexB units).length = (units.map fun u => 4 + u.length).sum := by
  intro units
  induction units with
  | nil => rfl
  | cons u us ih =>
    simp only [annexB, List.map_cons, List.flatten_cons, List.length_append,
      List.sum_cons, List.cons_append, List.nil_append, List.length_cons,
      List.length_nil] at ih ⊢
    omega

/-- C8: on every well-formed length-prefixed input (assembled from units
whose lengths fit in a `u32`), `AVCCDecoder::decode` succeeds, its
output is the per-unit concatenation of the start code `0x00000001`
followed by the unit's bytes, and the output length is the sum over
units of `4 + unit_length`. -/
theorem claim_C8 (units : List (List Nat)) (h : ∀ u ∈ units, u.length < 4294967296) :
    AVCCDecoder.decode (encodeUnits units) = Except.ok (annexB units) ∧
    (annexB units).length = (units.map fun u => 4 + u.length).sum := by
  constructor
  · have h2 := decodeLoop_encode units h []
    unfold AVCCDecoder.decode
    rw [h2]
    simp
  · exact annexB_length units

theorem claim_C8_witness :
    AVCCDecoder.decode (encodeUnits [[9], [], [2, 3]]) =
      Except.ok (annexB [[9], [], [2, 3]]) ∧
    (annexB [[9], [], [2, 3]]).length =
      (([[9], [], [2, 3]] : List (List Nat)).map fun u => 4 + u.length).sum :=
  claim_C8 [[9], [], [2, 3]] (by decide)

/-- C9 counterexample: two distinct, non-empty, well-formed
length-prefixed inputs whose reformatted outputs coincide: one unit that
happens to consist of the four bytes `00 00 00 01` (input
`00 00 00 04 00 00 00 01`) versus two empty units (input
`00 00 00 00 00 00 00 00`).  Both reformat to
`00 00 00 01 00 00 00 01`, so reformatting is not injective on
well-formed non-empty inputs. -/
theorem claim_C9_counterexample :
    encodeUnits [[0, 0, 0, 1]] ≠ encodeUnits [[], []] ∧
    encodeUnits [[0, 0, 0, 1]] ≠ [] ∧
    encodeUnits [[], []] ≠ [] ∧
    AVCCDecoder.decode (encodeUnits [[0, 0, 0, 1]]) =
      AVCCDecoder.decode (encodeUnits [[], []]) := by
  refine ⟨by decide, by decide, by decide, ?_⟩
  have h1 := decodeLoop_encode [[0, 0, 0, 1]] (by decide) []
  have h2 := decodeLoop_encode [[], []] (by decide) []
  unfold AVCCDecoder.decode
  rw [h1, h2]
  decide

theorem annexB_inj :
    ∀ (us vs : List (List Nat)), us.map List.length = vs.map List.length →
    annexB us = annexB vs → us = vs := by
  intro us
  induction us with
  | nil =>
    intro vs hp he
    cases vs with
    | nil => rfl
    | cons v vs2 => simp at hp
  | cons u us2 ih =>
    intro vs hp he
    cases vs with
    | nil => simp at hp
    | cons v vs2 =>
      simp only [List.map_cons, List.cons.injEq] at hp
      obtain ⟨hp1, hp2⟩ := hp
      simp only [annexB, List.map_cons, List.flatten_cons, List.cons_append,
        List.nil_append, List.append_assoc, List.cons.injEq, true_and] at he
      obtain ⟨hu, hrest⟩ := List.append_inj he hp1
      rw [hu, ih vs2 hp2 hrest]

/-- C9 (amended): reformatting is not injective on non-empty well-formed
inputs in general (see the counterexample), but it is injective once the
unit-boundary profile is fixed: two well-formed inputs with the same
per-unit lengths whose reformatted outputs agree are equal. -/
theorem claim_C9_amended (us vs : List (List Nat))
    (hus : ∀ u ∈ us, u.length < 4294967296)
    (hvs : ∀ v ∈ vs, v.length < 4294967296)
    (hprof : us.map List.length = vs.map List.length)
    (hdec : AVCCDecoder.decode (encodeUnits us) = AVCCDecoder.decode (encodeUnits vs)) :
    encodeUnits us = encodeUnits vs := by
  have h1 := decodeLoop_encode us hus []
  have h2 := decodeLoop_encode vs hvs []
  unfold AVCCDecoder.decode at hdec
  rw [h1, h2] at hdec
  simp only [List.nil_append, Except.ok.injEq] at hdec
  rw [annexB_inj us vs hprof hdec]

theorem claim_C9_witness :
    encodeUnits [[3], [4, 5]] = encodeUnits [[3], [4, 5]] :=
  claim_C9_amended [[3], [4, 5]] [[3], [4, 5]] (by decide) (by decide) rfl rfl
